import Mathlib

/- Shallow embedding of the task store of pxcvbe/todo-cli-node-v2.
   The embedded code is the documented TodoService variant in
   src/services/todoService.js together with the constants in
   src/config/constants.js. The persisted collection (the JSON array on
   disk, always rewritten whole) is modelled as a value of type List Todo
   threaded through every operation. Timestamps (Date.now and
   new Date().toISOString()) are modelled as an abstract clock reading of
   type Nat passed explicitly; JSON null and an absent key are both
   modelled as Option.none, a present key as Option.some. -/

/- constants.js, MESSAGES.MOTIVATIONAL. The string literals below
   reproduce the exact character content of the source file (the file
   stores mojibake for the emoji; those characters are written here as
   unicode escapes). -/

def MOTIVATIONAL_PERFECT : String := "\u011F\u0178\u2030 Amazing! All tasks completed!"

def MOTIVATIONAL_GREAT : String := "\u011F\u0178\u2019\u00AA Great progress! Keep it up!"

def MOTIVATIONAL_HALFWAY : String := "\u011F\u0178\u2018 You\u0027re halfway there!"

def MOTIVATIONAL_GOOD : String := "\u011F\u0178\u0161\u20AC Good start! Keep going!"

def MOTIVATIONAL_START : String := "\u011F\u0178\u0152\u00B1 Every journey starts with a single step!"

def MOTIVATIONAL_BEGIN : String := "\u011F\u0178\u2019\u00A1 Time to start checking off those tasks!"

/-- constants.js PRIORITY.MEDIUM, the default priority. -/
def PRIORITY_MEDIUM : String := "medium"

/-- A task record as stored in the JSON collection (the Todo typedef of
todoService.js). dueDate and tag are nullable; updatedAt and completedAt
are keys that may be absent from the object. -/
structure Todo where
  id : Nat
  description : String
  completed : Bool
  priority : String
  dueDate : Option String
  tag : Option String
  createdAt : Nat
  updatedAt : Option Nat := none
  completedAt : Option Nat := none
deriving DecidableEq, Repr

/-- The partial-fields object passed to TodoService.update. A field that
is some v means the key is present with value v and the object spread
overrides the stored value; none means the key is absent and the stored
value is kept. A spread can set a key but never remove one. -/
structure Updates where
  description : Option String := none
  completed : Option Bool := none
  priority : Option String := none
  dueDate : Option (Option String) := none
  tag : Option (Option String) := none
  completedAt : Option Nat := none

/-- Result of update, complete and uncomplete: the pre- and
post-mutation snapshots. -/
structure UpdateResult where
  old : Todo
  updated : Todo
deriving DecidableEq, Repr

/-- Result of clearCompleted. -/
structure ClearResult where
  cleared : Nat
  remaining : Nat
deriving DecidableEq, Repr

/-- Result of the import operation. -/
structure ImportResult where
  imported : Nat
  total : Nat
deriving DecidableEq, Repr

/-- Result of getStats. -/
structure TodoStats where
  total : Nat
  completed : Nat
  pending : Nat
  percentage : Nat
  motivationalMessage : String
deriving DecidableEq, Repr

/-- The filters object passed to TodoService.filter; every field
defaults to null in the source. -/
structure FilterArgs where
  completed : Option Bool := none
  pending : Option Bool := none
  priority : Option String := none
  tag : Option String := none

/-- The argument object passed to TodoService.create; priority, dueDate
and tag default to null or undefined, both modelled as none. -/
structure CreateArgs where
  description : String
  priority : Option String := none
  dueDate : Option String := none
  tag : Option String := none

/-- The distinct throw sites of todoService.js, read as error kinds. -/
inductive TodoError where
  | notFound (id : Nat)
  | alreadyCompleted
  | notCompleted
  | invalidImport
deriving DecidableEq, Repr

/-- The argument of the import operation: Array.isArray(tasks)
distinguishes an actual array from every other value. -/
inductive ImportArg where
  | array (tasks : List Todo)
  | notArray
deriving Repr

/-- Object spread of an Updates object onto a stored record, followed by
overwriting updatedAt, exactly as in TodoService.update:
curly-brace spread of the old record, then the updates, then
updatedAt set to now. -/
def mergeTodo (t : Todo) (u : Updates) (now : Nat) : Todo :=
  { id := t.id
    description := u.description.getD t.description
    completed := u.completed.getD t.completed
    priority := u.priority.getD t.priority
    dueDate := u.dueDate.getD t.dueDate
    tag := u.tag.getD t.tag
    createdAt := t.createdAt
    updatedAt := some now
    completedAt :=
      match u.completedAt with
      | some n => some n
      | none => t.completedAt }

/-- The statement delete updated.updated.completedAt applied to an
in-memory record: the completedAt key is removed. -/
def removeCompletedAt (t : Todo) : Todo :=
  { t with completedAt := none }

/-- Mirrors todos.findIndex(p) followed by assigning a replacement at
that index: returns the first element matching p, its replacement, and
the collection with that position overwritten; none when findIndex
returns -1. -/
def replaceFirst (p : Todo → Bool) (f : Todo → Todo) : List Todo → Option (Todo × Todo × List Todo)
  | [] => none
  | t :: ts =>
    if p t then some (t, f t, f t :: ts)
    else
      match replaceFirst p f ts with
      | none => none
      | some (o, n, ts1) => some (o, n, t :: ts1)

/-- Mirrors todos.findIndex(p) followed by todos.splice(index, 1):
returns the removed element and the remaining collection; none when
findIndex returns -1. -/
def removeFirst (p : Todo → Bool) : List Todo → Option (Todo × List Todo)
  | [] => none
  | t :: ts =>
    if p t then some (t, ts)
    else
      match removeFirst p ts with
      | none => none
      | some (d, ts1) => some (d, t :: ts1)

/-- String toLowerCase, modelled characterwise with Char.toLower. -/
def jsToLower (s : String) : String := String.mk (s.data.map Char.toLower)

/-- Whether the character list starts with the given character list. -/
def seqStarts : List Char → List Char → Bool
  | [], _ => true
  | _ :: _, [] => false
  | c :: cs, d :: ds => c == d && seqStarts cs ds

/-- Whether sub occurs as a contiguous run inside the second list. -/
def seqIn (sub : List Char) : List Char → Bool
  | [] => seqStarts sub []
  | c :: rest => seqStarts sub (c :: rest) || seqIn sub rest

/-- String.prototype.includes: s.includes(sub). -/
def strIncludes (s sub : String) : Bool := seqIn sub.toList s.toList

/-- TodoService.getAll: returns the persisted collection. -/
def TodoService.getAll (todos : List Todo) : List Todo := todos

/-- TodoService.getById: todos.find on id, throwing when absent. -/
def TodoService.getById (id : Nat) (todos : List Todo) : Except TodoError Todo :=
  match todos.find? (fun t => t.id == id) with
  | none => .error (.notFound id)
  | some t => .ok t

/-- TodoService.create. The default parameter covers undefined and the
normalizedPriority = priority or-else MEDIUM line additionally covers
null and the empty string, the falsy values a String argument can take.
Date.now() supplies the id and the same instant supplies createdAt. -/
def TodoService.create (args : CreateArgs) (now : Nat) (todos : List Todo) : Todo × List Todo :=
  let normalizedPriority :=
    match args.priority with
    | none => PRIORITY_MEDIUM
    | some p => if p == "" then PRIORITY_MEDIUM else p
  let newTodo : Todo :=
    { id := now
      description := args.description
      completed := false
      priority := normalizedPriority
      dueDate := args.dueDate
      tag := args.tag
      createdAt := now }
  (newTodo, todos ++ [newTodo])

/-- TodoService.update: findIndex on id, throw when -1, otherwise spread
the updates onto the record at that index, refresh updatedAt, persist
the collection, return old and updated snapshots. -/
def TodoService.update (id : Nat) (u : Updates) (now : Nat) (todos : List Todo) :
    Except TodoError UpdateResult × List Todo :=
  match replaceFirst (fun t => t.id == id) (fun t => mergeTodo t u now) todos with
  | none => (.error (.notFound id), todos)
  | some (oldTodo, newTodo, todos1) => (.ok { old := oldTodo, updated := newTodo }, todos1)

/-- TodoService.delete: findIndex on id, throw when -1, otherwise splice
the record out, persist, return the removed record. -/
def TodoService.delete (id : Nat) (todos : List Todo) :
    Except TodoError Todo × List Todo :=
  match removeFirst (fun t => t.id == id) todos with
  | none => (.error (.notFound id), todos)
  | some (d, ts) => (.ok d, ts)

/-- TodoService.complete: getById, throw when already completed,
otherwise update with completed true and completedAt now. -/
def TodoService.complete (id : Nat) (now : Nat) (todos : List Todo) :
    Except TodoError UpdateResult × List Todo :=
  match todos.find? (fun t => t.id == id) with
  | none => (.error (.notFound id), todos)
  | some todo =>
    if todo.completed then (.error .alreadyCompleted, todos)
    else TodoService.update id { completed := some true, completedAt := some now } now todos

/-- TodoService.uncomplete: getById, throw when not completed, otherwise
update with completed false. The source then executes
delete updated.updated.completedAt and storage.write(this.getAll()).
The delete statement mutates only the returned in-memory object; getAll
re-reads (parses) the file that update already wrote, so the final write
persists that same collection, completedAt key still present on the
targeted record. Only the returned snapshot loses completedAt. -/
def TodoService.uncomplete (id : Nat) (now : Nat) (todos : List Todo) :
    Except TodoError UpdateResult × List Todo :=
  match todos.find? (fun t => t.id == id) with
  | none => (.error (.notFound id), todos)
  | some todo =>
    if todo.completed = false then (.error .notCompleted, todos)
    else
      match TodoService.update id { completed := some false } now todos with
      | (.error e, ts) => (.error e, ts)
      | (.ok r, ts) => (.ok { old := r.old, updated := removeCompletedAt r.updated }, ts)

/-- TodoService.filter: an if-cascade giving completed precedence over
pending, then a truthiness-guarded exact-match restriction on priority
and then on tag. A null argument and an empty string are both falsy in
the guards. The comparison on tag is strict equality of a nullable
stored value against the given string. -/
def TodoService.filter (f : FilterArgs) (todos : List Todo) : List Todo :=
  let t1 :=
    if f.completed = some true then todos.filter (fun t => t.completed)
    else if f.pending = some true then todos.filter (fun t => !t.completed)
    else todos
  let t2 :=
    match f.priority with
    | none => t1
    | some p => if p == "" then t1 else t1.filter (fun t => t.priority == p)
  match f.tag with
  | none => t2
  | some g => if g == "" then t2 else t2.filter (fun t => t.tag == some g)

/-- TodoService.search: lowercase the keyword, keep the tasks whose
lowercased description includes it, or whose tag is truthy (present and
nonempty) and whose lowercased tag includes it. -/
def TodoService.search (keyword : String) (todos : List Todo) : List Todo :=
  let searchTerm := jsToLower keyword
  todos.filter (fun t =>
    strIncludes (jsToLower t.description) searchTerm ||
    (match t.tag with
     | none => false
     | some g => if g == "" then false else strIncludes (jsToLower g) searchTerm))

/-- TodoService.clearCompleted: persist the incomplete tasks, report how
many completed tasks were dropped and how many tasks remain. -/
def TodoService.clearCompleted (todos : List Todo) : ClearResult × List Todo :=
  let completedTasks := todos.filter (fun t => t.completed)
  let remainingTasks := todos.filter (fun t => !t.completed)
  ({ cleared := completedTasks.length, remaining := remainingTasks.length }, remainingTasks)

/-- Math.round((completed / total) * 100) for total > 0, computed
exactly over the rationals: round-half-up x = floor of x plus one half,
and for the rational 100 * c / t that floor is (200 * c + t) / (2 * t)
with Nat (floor) division. -/
def mathRound100 (completed total : Nat) : Nat := (200 * completed + total) / (2 * total)

/-- TodoService.getStats: counts, percentage (0 when the collection is
empty) and the motivational message chosen by the switch cascade in the
source, tested in this order: equal 100, at least 75, at least 50, at
least 25, above 0, default. -/
def TodoService.getStats (todos : List Todo) : TodoStats :=
  let total := todos.length
  let completed := (todos.filter (fun t => t.completed)).length
  let pending := total - completed
  let percentage := if total > 0 then mathRound100 completed total else 0
  let motivationalMessage :=
    if percentage == 100 then MOTIVATIONAL_PERFECT
    else if percentage ≥ 75 then MOTIVATIONAL_GREAT
    else if percentage ≥ 50 then MOTIVATIONAL_HALFWAY
    else if percentage ≥ 25 then MOTIVATIONAL_GOOD
    else if percentage > 0 then MOTIVATIONAL_START
    else MOTIVATIONAL_BEGIN
  { total := total
    completed := completed
    pending := pending
    percentage := percentage
    motivationalMessage := motivationalMessage }

/-- TodoService.export: alias for getAll. -/
def TodoService.exportTasks (todos : List Todo) : List Todo := TodoService.getAll todos

/-- TodoService.import: throw when the argument is not an array,
otherwise append the given records verbatim to the current collection,
persist the merge, report the counts. -/
def TodoService.importTasks (arg : ImportArg) (todos : List Todo) :
    Except TodoError ImportResult × List Todo :=
  match arg with
  | .notArray => (.error .invalidImport, todos)
  | .array tasks =>
    let mergedTodos := todos ++ tasks
    (.ok { imported := tasks.length, total := mergedTodos.length }, mergedTodos)

/- Helper lemmas about the findIndex-based list manipulations. -/

theorem replaceFirst_eq_none_iff (p : Todo → Bool) (f : Todo → Todo) (l : List Todo) :
    replaceFirst p f l = none ↔ ∀ x ∈ l, p x = false := by
  induction l with
  | nil => simp [replaceFirst]
  | cons t ts ih =>
    simp only [replaceFirst]
    by_cases h : p t
    · simp [h]
    · rw [if_neg h]
      cases hr : replaceFirst p f ts with
      | none =>
        constructor
        · intro _ x hx
          rcases List.mem_cons.mp hx with rfl | hx
          · exact Bool.eq_false_iff.mpr h
          · exact ih.mp hr x hx
        · intro _
          rfl
      | some v =>
        constructor
        · intro hc
          exact Option.noConfusion hc
        · intro hall
          have hnone : replaceFirst p f ts = none :=
            ih.mpr (fun x hx => hall x (List.mem_cons_of_mem _ hx))
          rw [hnone] at hr
          exact Option.noConfusion hr

theorem replaceFirst_eq_some (p : Todo → Bool) (f : Todo → Todo) (l : List Todo)
    (o n : Todo) (l' : List Todo) (h : replaceFirst p f l = some (o, n, l')) :
    n = f o ∧ p o = true ∧
      ∃ pre post, l = pre ++ o :: post ∧ (∀ x ∈ pre, p x = false) ∧ l' = pre ++ f o :: post := by
  induction l generalizing l' with
  | nil => simp [replaceFirst] at h
  | cons t ts ih =>
    by_cases hp : p t
    · simp only [replaceFirst, if_pos hp] at h
      obtain ⟨rfl, rfl, rfl⟩ : t = o ∧ f t = n ∧ f t :: ts = l' := by
        simpa using h
      exact ⟨rfl, hp, [], ts, rfl, by simp, rfl⟩
    · simp only [replaceFirst, if_neg hp] at h
      cases hr : replaceFirst p f ts with
      | none => rw [hr] at h; exact Option.noConfusion h
      | some v =>
        rcases v with ⟨o1, n1, ts1⟩
        rw [hr] at h
        obtain ⟨rfl, rfl, rfl⟩ : o1 = o ∧ n1 = n ∧ t :: ts1 = l' := by
          simpa using h
        obtain ⟨he, hpo, pre, post, hts, hpre, hts1⟩ := ih ts1 hr
        refine ⟨he, hpo, t :: pre, post, by simp [hts], ?_, by simp [hts1]⟩
        intro x hx
        rcases List.mem_cons.mp hx with rfl | hx
        · exact Bool.eq_false_iff.mpr hp
        · exact hpre x hx

theorem replaceFirst_append_cons (p : Todo → Bool) (f : Todo → Todo)
    (pre : List Todo) (t : Todo) (post : List Todo)
    (hpre : ∀ x ∈ pre, p x = false) (hp : p t = true) :
    replaceFirst p f (pre ++ t :: post) = some (t, f t, pre ++ f t :: post) := by
  induction pre with
  | nil => simp [replaceFirst, hp]
  | cons a as ih =>
    have ha : p a = false := hpre a (by simp)
    have htl : ∀ x ∈ as, p x = false := fun x hx => hpre x (by simp [hx])
    simp [replaceFirst, ha, ih htl]

theorem removeFirst_eq_none_iff (p : Todo → Bool) (l : List Todo) :
    removeFirst p l = none ↔ ∀ x ∈ l, p x = false := by
  induction l with
  | nil => simp [removeFirst]
  | cons t ts ih =>
    simp only [removeFirst]
    by_cases h : p t
    · simp [h]
    · rw [if_neg h]
      cases hr : removeFirst p ts with
      | none =>
        constructor
        · intro _ x hx
          rcases List.mem_cons.mp hx with rfl | hx
          · exact Bool.eq_false_iff.mpr h
          · exact ih.mp hr x hx
        · intro _
          rfl
      | some v =>
        constructor
        · intro hc
          exact Option.noConfusion hc
        · intro hall
          have hnone : removeFirst p ts = none :=
            ih.mpr (fun x hx => hall x (List.mem_cons_of_mem _ hx))
          rw [hnone] at hr
          exact Option.noConfusion hr

theorem removeFirst_eq_some (p : Todo → Bool) (l : List Todo)
    (d : Todo) (l' : List Todo) (h : removeFirst p l = some (d, l')) :
    p d = true ∧
      ∃ pre post, l = pre ++ d :: post ∧ (∀ x ∈ pre, p x = false) ∧ l' = pre ++ post := by
  induction l generalizing l' with
  | nil => simp [removeFirst] at h
  | cons t ts ih =>
    by_cases hp : p t
    · simp only [removeFirst, if_pos hp] at h
      obtain ⟨rfl, rfl⟩ : t = d ∧ ts = l' := by simpa using h
      exact ⟨hp, [], ts, rfl, by simp, rfl⟩
    · simp only [removeFirst, if_neg hp] at h
      cases hr : removeFirst p ts with
      | none => rw [hr] at h; exact Option.noConfusion h
      | some v =>
        rcases v with ⟨d1, ts1⟩
        rw [hr] at h
        obtain ⟨rfl, rfl⟩ : d1 = d ∧ t :: ts1 = l' := by simpa using h
        obtain ⟨hpd, pre, post, hts, hpre, hts1⟩ := ih ts1 hr
        refine ⟨hpd, t :: pre, post, by simp [hts], ?_, by simp [hts1]⟩
        intro x hx
        rcases List.mem_cons.mp hx with rfl | hx
        · exact Bool.eq_false_iff.mpr hp
        · exact hpre x hx

theorem removeFirst_append_cons (p : Todo → Bool)
    (pre : List Todo) (t : Todo) (post : List Todo)
    (hpre : ∀ x ∈ pre, p x = false) (hp : p t = true) :
    removeFirst p (pre ++ t :: post) = some (t, pre ++ post) := by
  induction pre with
  | nil => simp [removeFirst, hp]
  | cons a as ih =>
    have ha : p a = false := hpre a (by simp)
    have htl : ∀ x ∈ as, p x = false := fun x hx => hpre x (by simp [hx])
    simp [removeFirst, ha, ih htl]

theorem find?_append_cons (p : Todo → Bool) (pre : List Todo) (t : Todo) (post : List Todo)
    (hpre : ∀ x ∈ pre, p x = false) (hp : p t = true) :
    (pre ++ t :: post).find? p = some t := by
  induction pre with
  | nil => simp [List.find?_cons_of_pos _ hp]
  | cons a as ih =>
    have ha : ¬ p a = true := by simp [hpre a (by simp)]
    have htl : ∀ x ∈ as, p x = false := fun x hx => hpre x (by simp [hx])
    simpa [List.find?_cons_of_neg _ ha] using ih htl

theorem find?_decomp (p : Todo → Bool) (l : List Todo) (a : Todo)
    (h : l.find? p = some a) :
    p a = true ∧ ∃ pre post, l = pre ++ a :: post ∧ ∀ x ∈ pre, p x = false := by
  induction l with
  | nil => simp at h
  | cons t ts ih =>
    by_cases hp : p t
    · rw [List.find?_cons_of_pos _ hp] at h
      obtain rfl : t = a := by simpa using h
      exact ⟨hp, [], ts, rfl, by simp⟩
    · rw [List.find?_cons_of_neg _ hp] at h
      obtain ⟨hpa, pre, post, hts, hpre⟩ := ih h
      refine ⟨hpa, t :: pre, post, by simp [hts], ?_⟩
      intro x hx
      rcases List.mem_cons.mp hx with rfl | hx
      · exact Bool.eq_false_iff.mpr hp
      · exact hpre x hx

/- Sample records used by concrete witnesses and counterexamples. -/

/-- A pending task with no optional fields set. -/
def plainTask : Todo :=
  { id := 1, description := "Buy milk", completed := false, priority := "medium",
    dueDate := none, tag := none, createdAt := 0 }

/-- A completed, well-formed task: completed true with completedAt present. -/
def doneTask : Todo :=
  { id := 2, description := "Fix bug", completed := true, priority := "high",
    dueDate := none, tag := some "work", createdAt := 0,
    updatedAt := some 1, completedAt := some 1 }

/-- C3: create applies the medium default exactly when priority is
absent or falsy, returns a record with completed false, createdAt set
and neither updatedAt nor completedAt, and persists the old collection
with the new record appended at the end. -/
theorem create_defaults_and_append (args : CreateArgs) (now : Nat) (s : List Todo) :
    ((args.priority = none ∨ args.priority = some "") →
      (TodoService.create args now s).1.priority = PRIORITY_MEDIUM) ∧
    (TodoService.create args now s).1.completed = false ∧
    (TodoService.create args now s).1.createdAt = now ∧
    (TodoService.create args now s).1.updatedAt = none ∧
    (TodoService.create args now s).1.completedAt = none ∧
    (TodoService.create args now s).2 = s ++ [(TodoService.create args now s).1] := by
  refine ⟨?_, rfl, rfl, rfl, rfl, rfl⟩
  rintro (h | h) <;> simp [TodoService.create, h]

/-- Witness for C3 at a concrete input: priority absent gives medium. -/
theorem create_defaults_and_append_witness :
    (TodoService.create { description := "desc" } 7 []).1.priority = PRIORITY_MEDIUM ∧
    (TodoService.create { description := "desc" } 7 []).1.completed = false ∧
    (TodoService.create { description := "desc" } 7 []).2 =
      [(TodoService.create { description := "desc" } 7 []).1] := by
  have h := create_defaults_and_append { description := "desc" } 7 []
  exact ⟨h.1 (Or.inl rfl), h.2.1, h.2.2.2.2.2⟩

/-- C6: import throws InvalidImportError exactly on a non-array
argument, leaving the collection unchanged, and otherwise persists the
old collection followed by the given records verbatim and reports the
counts. -/
theorem import_merge_spec (s : List Todo) :
    TodoService.importTasks ImportArg.notArray s = (.error .invalidImport, s) ∧
    ∀ ts, TodoService.importTasks (ImportArg.array ts) s =
      (.ok { imported := ts.length, total := s.length + ts.length }, s ++ ts) := by
  refine ⟨rfl, fun ts => ?_⟩
  simp [TodoService.importTasks]

/-- C9: clearCompleted drops exactly the completed tasks, persists the
remainder, reports the counts, and a second call clears nothing and
leaves the collection unchanged. -/
theorem clearCompleted_spec (s : List Todo) :
    (TodoService.clearCompleted s).1.cleared = (s.filter (fun t => t.completed)).length ∧
    (TodoService.clearCompleted s).2 = s.filter (fun t => !t.completed) ∧
    (TodoService.clearCompleted s).1.remaining = (TodoService.clearCompleted s).2.length ∧
    List.Sublist (TodoService.clearCompleted s).2 s ∧
    (TodoService.clearCompleted (TodoService.clearCompleted s).2).1.cleared = 0 ∧
    (TodoService.clearCompleted (TodoService.clearCompleted s).2).2 =
      (TodoService.clearCompleted s).2 := by
  refine ⟨rfl, rfl, rfl, List.filter_sublist s, ?_, ?_⟩
  · show ((s.filter (fun t => !t.completed)).filter (fun t => t.completed)).length = 0
    rw [List.length_eq_zero, List.filter_eq_nil_iff]
    intro a ha
    have := (List.mem_filter.mp ha).2
    simpa using this
  · show ((s.filter (fun t => !t.completed)).filter (fun t => !t.completed)) =
      s.filter (fun t => !t.completed)
    rw [List.filter_eq_self]
    intro a ha
    exact (List.mem_filter.mp ha).2

/-- Witness for C9 at a concrete input with one completed and one
pending task. -/
theorem clearCompleted_spec_witness :
    (TodoService.clearCompleted [plainTask, doneTask]).1.cleared = 1 ∧
    (TodoService.clearCompleted [plainTask, doneTask]).2 = [plainTask] ∧
    (TodoService.clearCompleted [plainTask]).1.cleared = 0 := by
  have h := clearCompleted_spec [plainTask, doneTask]
  refine ⟨?_, ?_, ?_⟩
  · rw [h.1]; decide
  · rw [h.2.1]; decide
  · have h2 := clearCompleted_spec [plainTask]
    rw [h2.1]; decide

/-- C1: at a concrete completed task, uncomplete succeeds but the
persisted collection keeps the completedAt key on the record it set to
completed false, while only the returned snapshot has the key removed.
This exhibits the violation of the completion-status invariant in the
persisted state. -/
theorem uncomplete_persists_completedAt :
    (TodoService.uncomplete 2 5 [doneTask]).2 =
      [{ doneTask with completed := false, updatedAt := some 5, completedAt := some 1 }] ∧
    (TodoService.uncomplete 2 5 [doneTask]).1 =
      .ok { old := doneTask,
            updated := { doneTask with
                          completed := false, updatedAt := some 5, completedAt := none } } ∧
    ∃ t, (TodoService.uncomplete 2 5 [doneTask]).2 = [t] ∧
      t.completed = false ∧ t.completedAt = some 1 := by
  refine ⟨rfl, rfl, ⟨_, rfl, rfl, rfl⟩⟩

/-- Round half up of the rational num / den with den positive: the floor
of the value plus one half, written over Nat with floor division. -/
def roundHalfUp (num den : Nat) : Nat := (2 * num + den) / (2 * den)

/-- C5: getStats reports total, completed, pending = total minus
completed, percentage as round-half-up of completed over total times
100 (0 on an empty collection), and the motivational message picked by
the first matching threshold in descending order, the six tier messages
being pairwise distinct constants. -/
theorem getStats_spec (s : List Todo) :
    (TodoService.getStats s).total = s.length ∧
    (TodoService.getStats s).completed = (s.filter (fun t => t.completed)).length ∧
    (TodoService.getStats s).pending =
      (TodoService.getStats s).total - (TodoService.getStats s).completed ∧
    (s.length = 0 → (TodoService.getStats s).percentage = 0) ∧
    (0 < s.length → (TodoService.getStats s).percentage =
      roundHalfUp (100 * (TodoService.getStats s).completed) s.length) ∧
    ((TodoService.getStats s).percentage = 100 →
      (TodoService.getStats s).motivationalMessage = MOTIVATIONAL_PERFECT) ∧
    ((TodoService.getStats s).percentage ≠ 100 → 75 ≤ (TodoService.getStats s).percentage →
      (TodoService.getStats s).motivationalMessage = MOTIVATIONAL_GREAT) ∧
    ((TodoService.getStats s).percentage < 75 → 50 ≤ (TodoService.getStats s).percentage →
      (TodoService.getStats s).motivationalMessage = MOTIVATIONAL_HALFWAY) ∧
    ((TodoService.getStats s).percentage < 50 → 25 ≤ (TodoService.getStats s).percentage →
      (TodoService.getStats s).motivationalMessage = MOTIVATIONAL_GOOD) ∧
    ((TodoService.getStats s).percentage < 25 → 0 < (TodoService.getStats s).percentage →
      (TodoService.getStats s).motivationalMessage = MOTIVATIONAL_START) ∧
    ((TodoService.getStats s).percentage = 0 →
      (TodoService.getStats s).motivationalMessage = MOTIVATIONAL_BEGIN) ∧
    List.Pairwise (fun a b => a ≠ b)
      [MOTIVATIONAL_PERFECT, MOTIVATIONAL_GREAT, MOTIVATIONAL_HALFWAY,
       MOTIVATIONAL_GOOD, MOTIVATIONAL_START, MOTIVATIONAL_BEGIN] := by
  have hpct : (TodoService.getStats s).percentage =
      (if s.length > 0
        then mathRound100 ((s.filter (fun t => t.completed)).length) s.length
        else 0) := rfl
  have hmsg : (TodoService.getStats s).motivationalMessage =
      (if (TodoService.getStats s).percentage == 100 then MOTIVATIONAL_PERFECT
       else if (TodoService.getStats s).percentage ≥ 75 then MOTIVATIONAL_GREAT
       else if (TodoService.getStats s).percentage ≥ 50 then MOTIVATIONAL_HALFWAY
       else if (TodoService.getStats s).percentage ≥ 25 then MOTIVATIONAL_GOOD
       else if (TodoService.getStats s).percentage > 0 then MOTIVATIONAL_START
       else MOTIVATIONAL_BEGIN) := rfl
  refine ⟨rfl, rfl, rfl, ?_, ?_, ?_, ?_, ?_, ?_, ?_, ?_, by decide⟩
  · intro h0
    rw [hpct, h0]
    simp
  · intro hpos
    rw [hpct, if_pos hpos]
    show (200 * (s.filter (fun t => t.completed)).length + s.length) / (2 * s.length) =
      (2 * (100 * (s.filter (fun t => t.completed)).length) + s.length) / (2 * s.length)
    congr 1
    omega
  · intro h
    rw [hmsg, h]
    simp
  · intro h1 h2
    rw [hmsg]
    simp [h1, h2]
  · intro h1 h2
    have hne : ¬ ((TodoService.getStats s).percentage = 100) := by omega
    have h75 : ¬ (75 ≤ (TodoService.getStats s).percentage) := by omega
    rw [hmsg]
    simp [hne, h75, h2]
  · intro h1 h2
    have hne : ¬ ((TodoService.getStats s).percentage = 100) := by omega
    have h75 : ¬ (75 ≤ (TodoService.getStats s).percentage) := by omega
    have h50 : ¬ (50 ≤ (TodoService.getStats s).percentage) := by omega
    rw [hmsg]
    simp [hne, h75, h50, h2]
  · intro h1 h2
    have hne : ¬ ((TodoService.getStats s).percentage = 100) := by omega
    have h75 : ¬ (75 ≤ (TodoService.getStats s).percentage) := by omega
    have h50 : ¬ (50 ≤ (TodoService.getStats s).percentage) := by omega
    have h25 : ¬ (25 ≤ (TodoService.getStats s).percentage) := by omega
    rw [hmsg]
    simp [hne, h75, h50, h25, h2]
  · intro h0
    rw [hmsg]
    simp [h0]

/-- Witness for C5 at concrete inputs: empty collection gives 0 percent
and the begin tier; one of two tasks completed gives 50 percent and the
halfway tier. -/
theorem getStats_spec_witness :
    (TodoService.getStats []).percentage = 0 ∧
    (TodoService.getStats []).motivationalMessage = MOTIVATIONAL_BEGIN ∧
    (TodoService.getStats [plainTask, doneTask]).percentage = 50 ∧
    (TodoService.getStats [plainTask, doneTask]).motivationalMessage = MOTIVATIONAL_HALFWAY := by
  have h0 := getStats_spec []
  have h2 := getStats_spec [plainTask, doneTask]
  have hp0 : (TodoService.getStats ([] : List Todo)).percentage = 0 := h0.2.2.2.1 rfl
  have hp2 : (TodoService.getStats [plainTask, doneTask]).percentage = 50 := by
    rw [h2.2.2.2.2.1 (by decide)]
    decide
  refine ⟨hp0, h0.2.2.2.2.2.2.2.2.2.2.1 hp0, hp2, ?_⟩
  exact h2.2.2.2.2.2.2.2.1 (by omega) (by omega)

/-- Every filter result is a sublist of the collection: each stage is
either the identity or a List.filter. -/
theorem filter_result_sublist (f : FilterArgs) (s : List Todo) :
    List.Sublist (TodoService.filter f s) s := by
  rcases f with ⟨fc, fp, fprio, ftag⟩
  simp only [TodoService.filter]
  repeat' split
  all_goals
    first
      | exact List.Sublist.refl _
      | exact List.filter_sublist _
      | exact (List.filter_sublist _).trans (List.filter_sublist _)
      | exact ((List.filter_sublist _).trans (List.filter_sublist _)).trans (List.filter_sublist _)

/-- C4 (amended): filter returns exactly the tasks satisfying the
conjunction of the given criteria, where a restriction is active for
completed equal true, else for pending equal true, and for a non-null
AND nonempty priority or tag (the source guards priority and tag by
truthiness, so the empty string imposes no restriction); results keep
storage order and the empty filter object returns the collection
unchanged. -/
theorem filter_spec (f : FilterArgs) (s : List Todo) :
    (∀ t, t ∈ TodoService.filter f s ↔ t ∈ s ∧
      (f.completed = some true → t.completed = true) ∧
      (f.completed ≠ some true → f.pending = some true → t.completed = false) ∧
      (∀ p, f.priority = some p → p ≠ "" → t.priority = p) ∧
      (∀ g, f.tag = some g → g ≠ "" → t.tag = some g)) ∧
    List.Sublist (TodoService.filter f s) s ∧
    TodoService.filter {} s = s := by
  refine ⟨?_, filter_result_sublist f s, by simp [TodoService.filter]⟩
  intro t
  rcases f with ⟨fc, fp, fprio, ftag⟩
  by_cases hc : fc = some true <;> by_cases hp : fp = some true <;>
    rcases fprio with _ | p <;> rcases ftag with _ | g <;>
      simp only [TodoService.filter, hc, hp, if_true, if_false] <;>
        (try split_ifs) <;>
          simp_all [List.mem_filter] <;>
            tauto

/-- C4 counterexample to the claim as stated: the empty string is a
non-null priority argument, yet filter imposes no priority restriction
for it (the truthiness guard skips it), so a task whose priority is not
the empty string is still returned. -/
theorem filter_empty_string_counterexample :
    plainTask ∈ TodoService.filter { priority := some "" } [plainTask] ∧
    plainTask.priority ≠ "" := by
  constructor
  · decide
  · decide

/-- Witness for the amended C4 at concrete inputs: a conjunctive
priority and tag filter keeps a matching task, and the empty filter
object returns the collection unchanged. -/
theorem filter_spec_witness :
    doneTask ∈ TodoService.filter { priority := some "high", tag := some "work" }
      [plainTask, doneTask] ∧
    TodoService.filter {} [plainTask, doneTask] = [plainTask, doneTask] := by
  have h := filter_spec { priority := some "high", tag := some "work" } [plainTask, doneTask]
  have h2 := filter_spec ({} : FilterArgs) [plainTask, doneTask]
  refine ⟨?_, h2.2.2⟩
  refine (h.1 doneTask).mpr ⟨by decide, fun hx => Option.noConfusion hx,
    fun _ hx => Option.noConfusion hx, ?_, ?_⟩
  · intro p hp hpe
    cases hp
    rfl
  · intro g hg hge
    cases hg
    rfl

/-- The empty character sequence occurs in every character sequence. -/
theorem seqIn_nil_left (l : List Char) : seqIn [] l = true := by
  cases l with
  | nil => rfl
  | cons c rest => simp [seqIn, seqStarts]

/-- Only the empty character sequence occurs in the empty sequence. -/
theorem seqIn_nil_right (sub : List Char) (h : seqIn sub [] = true) : sub = [] := by
  cases sub with
  | nil => rfl
  | cons c cs => simp [seqIn, seqStarts] at h

/-- A keyword included in the empty string is included in every
string. -/
theorem strIncludes_of_empty (d k : String) (h : strIncludes "" k = true) :
    strIncludes d k = true := by
  unfold strIncludes at h ⊢
  have h0 : ("" : String).toList = [] := rfl
  rw [h0] at h
  rw [seqIn_nil_right _ h]
  exact seqIn_nil_left _

/-- C8: search returns exactly the tasks whose lowercased description
includes the lowercased keyword, or whose tag is present and whose
lowercased tag includes it (a missing tag merely excludes the tag side);
consequently keywords with the same lowercasing give identical
results. -/
theorem search_spec (keyword : String) (s : List Todo) :
    (∀ t, t ∈ TodoService.search keyword s ↔ t ∈ s ∧
      (strIncludes (jsToLower t.description) (jsToLower keyword) = true ∨
       ∃ g, t.tag = some g ∧ strIncludes (jsToLower g) (jsToLower keyword) = true)) ∧
    (∀ k2, jsToLower keyword = jsToLower k2 →
      TodoService.search keyword s = TodoService.search k2 s) := by
  constructor
  · intro t
    simp only [TodoService.search, List.mem_filter]
    constructor
    · rintro ⟨hts, hcond⟩
      refine ⟨hts, ?_⟩
      rw [Bool.or_eq_true] at hcond
      rcases hcond with hd | ht
      · exact Or.inl hd
      · cases htag : t.tag with
        | none => rw [htag] at ht; simp at ht
        | some g =>
          rw [htag] at ht
          by_cases hge : g = ""
          · subst hge
            simp at ht
          · simp only [hge] at ht
            simp [hge] at ht
            exact Or.inr ⟨g, rfl, ht⟩
    · rintro ⟨hts, hd | ⟨g, hg, hginc⟩⟩
      · refine ⟨hts, ?_⟩
        rw [Bool.or_eq_true]
        exact Or.inl hd
      · refine ⟨hts, ?_⟩
        rw [Bool.or_eq_true]
        by_cases hge : g = ""
        · subst hge
          have hd : strIncludes (jsToLower t.description) (jsToLower keyword) = true := by
            apply strIncludes_of_empty
            have hlow : jsToLower "" = "" := rfl
            rw [hlow] at hginc
            exact hginc
          exact Or.inl hd
        · refine Or.inr ?_
          simp [hg, hge]
          exact hginc
  · intro k2 h
    simp only [TodoService.search, h]

/-- Witness for C8 at a concrete input: searching BUG and bug return
the same result and both find the task whose description contains the
word bug. -/
theorem search_spec_witness :
    doneTask ∈ TodoService.search "BUG" [plainTask, doneTask] ∧
    TodoService.search "BUG" [plainTask, doneTask] =
      TodoService.search "bug" [plainTask, doneTask] := by
  have h := search_spec "BUG" [plainTask, doneTask]
  constructor
  · exact (h.1 doneTask).mpr ⟨by decide, Or.inl (by decide)⟩
  · exact h.2 "bug" (by decide)

/-- C2: on a pending, well-formed task found in the collection,
complete then uncomplete succeed and the updated snapshot returned by
uncomplete equals the original task in every field except updatedAt,
with no completedAt present. -/
theorem complete_uncomplete_roundtrip (s : List Todo) (T : Todo) (n1 n2 : Nat)
    (hfind : s.find? (fun x => x.id == T.id) = some T)
    (hpend : T.completed = false) (hwf : T.completedAt = none) :
    ∃ r1 s1 r2 s2,
      TodoService.complete T.id n1 s = (.ok r1, s1) ∧
      TodoService.uncomplete T.id n2 s1 = (.ok r2, s2) ∧
      r2.updated = { T with updatedAt := some n2 } := by
  obtain ⟨hpT, pre, post, hs, hpre⟩ := find?_decomp _ _ _ hfind
  have hrep1 := replaceFirst_append_cons (fun x => x.id == T.id)
    (fun t => mergeTodo t { completed := some true, completedAt := some n1 } n1)
    pre T post hpre hpT
  have hupd1 : TodoService.update T.id { completed := some true, completedAt := some n1 } n1 s =
      (.ok { old := T,
             updated := mergeTodo T { completed := some true, completedAt := some n1 } n1 },
       pre ++ mergeTodo T { completed := some true, completedAt := some n1 } n1 :: post) := by
    simp only [TodoService.update]
    rw [hs, hrep1]
  have hcomp : TodoService.complete T.id n1 s =
      (.ok { old := T,
             updated := mergeTodo T { completed := some true, completedAt := some n1 } n1 },
       pre ++ mergeTodo T { completed := some true, completedAt := some n1 } n1 :: post) := by
    simp only [TodoService.complete, hfind]
    rw [if_neg (by simp [hpend])]
    exact hupd1
  have hT1id : ((mergeTodo T { completed := some true, completedAt := some n1 } n1).id
      == T.id) = true := by
    simp [mergeTodo]
  have hT1comp : (mergeTodo T { completed := some true, completedAt := some n1 } n1).completed
      = true := by
    simp [mergeTodo]
  have hfind1 := find?_append_cons (fun x => x.id == T.id) pre
    (mergeTodo T { completed := some true, completedAt := some n1 } n1) post hpre hT1id
  have hrep2 := replaceFirst_append_cons (fun x => x.id == T.id)
    (fun t => mergeTodo t { completed := some false } n2)
    pre (mergeTodo T { completed := some true, completedAt := some n1 } n1) post hpre hT1id
  have hupd2 : TodoService.update T.id { completed := some false } n2
      (pre ++ mergeTodo T { completed := some true, completedAt := some n1 } n1 :: post) =
      (.ok { old := mergeTodo T { completed := some true, completedAt := some n1 } n1,
             updated := mergeTodo
               (mergeTodo T { completed := some true, completedAt := some n1 } n1)
               { completed := some false } n2 },
       pre ++ mergeTodo (mergeTodo T { completed := some true, completedAt := some n1 } n1)
               { completed := some false } n2 :: post) := by
    simp only [TodoService.update]
    rw [hrep2]
  have hunc : TodoService.uncomplete T.id n2
      (pre ++ mergeTodo T { completed := some true, completedAt := some n1 } n1 :: post) =
      (.ok { old := mergeTodo T { completed := some true, completedAt := some n1 } n1,
             updated := removeCompletedAt (mergeTodo
               (mergeTodo T { completed := some true, completedAt := some n1 } n1)
               { completed := some false } n2) },
       pre ++ mergeTodo (mergeTodo T { completed := some true, completedAt := some n1 } n1)
               { completed := some false } n2 :: post) := by
    simp only [TodoService.uncomplete, hfind1]
    rw [if_neg (by simp [hT1comp])]
    rw [hupd2]
  have hfinal : removeCompletedAt (mergeTodo
      (mergeTodo T { completed := some true, completedAt := some n1 } n1)
      { completed := some false } n2) = { T with updatedAt := some n2 } := by
    rcases T with ⟨tid, tdesc, tcomp, tprio, tdue, ttag, tcAt, tuAt, tcompAt⟩
    obtain rfl : tcomp = false := hpend
    obtain rfl : tcompAt = none := hwf
    simp [mergeTodo, removeCompletedAt]
  exact ⟨_, _, _, _, hcomp, hunc, hfinal⟩

/-- Witness for C2 at a concrete input: a fresh pending task
round-trips through complete and uncomplete. -/
theorem complete_uncomplete_roundtrip_witness :
    [plainTask].find? (fun x => x.id == plainTask.id) = some plainTask ∧
    plainTask.completed = false ∧ plainTask.completedAt = none ∧
    ∃ r1 s1 r2 s2,
      TodoService.complete plainTask.id 3 [plainTask] = (.ok r1, s1) ∧
      TodoService.uncomplete plainTask.id 4 s1 = (.ok r2, s2) ∧
      r2.updated = { plainTask with updatedAt := some 4 } :=
  ⟨by decide, rfl, rfl,
   complete_uncomplete_roundtrip [plainTask] plainTask 3 4 (by decide) rfl rfl⟩

/-- C7: the id-directed operations fail with NotFoundError exactly when
no task has the id; complete additionally fails with
AlreadyCompletedError exactly when the found task is already completed,
uncomplete with NotCompletedError exactly when it is not; every failure
leaves the persisted collection unchanged; a successful delete removes
exactly the first record with that id, persists the remainder in order,
and returns the removed record. -/
theorem id_directed_ops_spec (id : Nat) (u : Updates) (n : Nat) (s : List Todo) :
    (TodoService.getById id s = .error (.notFound id) ↔ ∀ t ∈ s, ¬ t.id = id) ∧
    ((TodoService.update id u n s).1 = .error (.notFound id) ↔ ∀ t ∈ s, ¬ t.id = id) ∧
    ((TodoService.delete id s).1 = .error (.notFound id) ↔ ∀ t ∈ s, ¬ t.id = id) ∧
    ((TodoService.complete id n s).1 = .error (.notFound id) ↔ ∀ t ∈ s, ¬ t.id = id) ∧
    ((TodoService.uncomplete id n s).1 = .error (.notFound id) ↔ ∀ t ∈ s, ¬ t.id = id) ∧
    (∀ T, s.find? (fun x => x.id == id) = some T →
      (((TodoService.complete id n s).1 = .error .alreadyCompleted) ↔ T.completed = true) ∧
      (((TodoService.uncomplete id n s).1 = .error .notCompleted) ↔ T.completed = false)) ∧
    (∀ e, (TodoService.update id u n s).1 = .error e → (TodoService.update id u n s).2 = s) ∧
    (∀ e, (TodoService.delete id s).1 = .error e → (TodoService.delete id s).2 = s) ∧
    (∀ e, (TodoService.complete id n s).1 = .error e → (TodoService.complete id n s).2 = s) ∧
    (∀ e, (TodoService.uncomplete id n s).1 = .error e →
      (TodoService.uncomplete id n s).2 = s) ∧
    (∀ d, (TodoService.delete id s).1 = .ok d → d.id = id ∧
      ∃ pre post, s = pre ++ d :: post ∧ (∀ x ∈ pre, ¬ x.id = id) ∧
        (TodoService.delete id s).2 = pre ++ post) := by
  have hnone_iff : s.find? (fun x => x.id == id) = none ↔ ∀ t ∈ s, ¬ t.id = id := by
    rw [List.find?_eq_none]
    constructor <;> intro h t ht <;> simpa using h t ht
  cases hf : s.find? (fun x => x.id == id) with
  | none =>
    have hall : ∀ t ∈ s, ¬ t.id = id := hnone_iff.mp hf
    have hallb : ∀ t ∈ s, (fun x : Todo => x.id == id) t = false := by
      intro t ht
      simpa using hall t ht
    have hrep : ∀ (u' : Updates) (n' : Nat),
        replaceFirst (fun x => x.id == id) (fun t => mergeTodo t u' n') s = none :=
      fun u' n' => (replaceFirst_eq_none_iff _ _ _).mpr hallb
    have hrem : removeFirst (fun x => x.id == id) s = none :=
      (removeFirst_eq_none_iff _ _).mpr hallb
    refine ⟨?_, ?_, ?_, ?_, ?_, ?_, ?_, ?_, ?_, ?_, ?_⟩
    · simp only [TodoService.getById, hf]
      exact iff_of_true trivial hall
    · simp only [TodoService.update, hrep u n]
      exact iff_of_true trivial hall
    · simp only [TodoService.delete, hrem]
      exact iff_of_true trivial hall
    · simp only [TodoService.complete, hf]
      exact iff_of_true trivial hall
    · simp only [TodoService.uncomplete, hf]
      exact iff_of_true trivial hall
    · intro T hT
      exact Option.noConfusion hT
    · intro e _
      simp only [TodoService.update, hrep u n]
    · intro e _
      simp only [TodoService.delete, hrem]
    · intro e _
      simp only [TodoService.complete, hf]
    · intro e _
      simp only [TodoService.uncomplete, hf]
    · intro d hd
      simp only [TodoService.delete, hrem] at hd
      exact absurd hd (by simp)
  | some T =>
    obtain ⟨hpT, pre, post, hs, hpre⟩ := find?_decomp _ _ _ hf
    have hTid : T.id = id := by simpa using hpT
    have hTmem : T ∈ s := by rw [hs]; simp
    have hnotall : ¬ (∀ t ∈ s, ¬ t.id = id) := fun hall => (hall T hTmem) hTid
    have hrepAny : ∀ (u' : Updates) (n' : Nat),
        replaceFirst (fun x => x.id == id) (fun t => mergeTodo t u' n') s =
          some (T, mergeTodo T u' n', pre ++ mergeTodo T u' n' :: post) := by
      intro u' n'
      rw [hs]
      exact replaceFirst_append_cons _ _ pre T post hpre hpT
    have hrem : removeFirst (fun x => x.id == id) s = some (T, pre ++ post) := by
      rw [hs]
      exact removeFirst_append_cons _ pre T post hpre hpT
    refine ⟨?_, ?_, ?_, ?_, ?_, ?_, ?_, ?_, ?_, ?_, ?_⟩
    · simp only [TodoService.getById, hf]
      exact iff_of_false (by simp) hnotall
    · simp only [TodoService.update, hrepAny u n]
      exact iff_of_false (by simp) hnotall
    · simp only [TodoService.delete, hrem]
      exact iff_of_false (by simp) hnotall
    · simp only [TodoService.complete, hf]
      by_cases hc : T.completed
      · rw [if_pos hc]
        exact iff_of_false (by simp) hnotall
      · rw [if_neg hc]
        simp only [TodoService.update, hrepAny _ n]
        exact iff_of_false (by simp) hnotall
    · simp only [TodoService.uncomplete, hf]
      by_cases hc : T.completed = false
      · rw [if_pos hc]
        exact iff_of_false (by simp) hnotall
      · rw [if_neg hc]
        simp only [TodoService.update, hrepAny _ n]
        exact iff_of_false (by simp) hnotall
    · intro T' hT'
      obtain rfl : T = T' := Option.some.inj hT'
      constructor
      · simp only [TodoService.complete, hf]
        by_cases hc : T.completed
        · rw [if_pos hc]
          exact iff_of_true rfl (by simpa using hc)
        · rw [if_neg hc]
          simp only [TodoService.update, hrepAny _ n]
          exact iff_of_false (by simp) (by simpa using hc)
      · simp only [TodoService.uncomplete, hf]
        by_cases hc : T.completed = false
        · rw [if_pos hc]
          exact iff_of_true rfl hc
        · rw [if_neg hc]
          simp only [TodoService.update, hrepAny _ n]
          exact iff_of_false (by simp) hc
    · intro e he
      simp only [TodoService.update, hrepAny u n] at he
      exact absurd he (by simp)
    · intro e he
      simp only [TodoService.delete, hrem] at he
      exact absurd he (by simp)
    · intro e he
      simp only [TodoService.complete, hf] at he ⊢
      by_cases hc : T.completed
      · rw [if_pos hc]
      · rw [if_neg hc] at he
        simp only [TodoService.update, hrepAny _ n] at he
        exact absurd he (by simp)
    · intro e he
      simp only [TodoService.uncomplete, hf] at he ⊢
      by_cases hc : T.completed = false
      · rw [if_pos hc]
      · rw [if_neg hc] at he
        simp only [TodoService.update, hrepAny _ n] at he
        exact absurd he (by simp)
    · intro d hd
      simp only [TodoService.delete, hrem] at hd ⊢
      obtain rfl : T = d := by simpa using hd
      refine ⟨hTid, pre, post, hs, ?_, rfl⟩
      intro x hx
      simpa using hpre x hx

/-- Witness for C7 at concrete inputs: a missing id gives NotFoundError,
completing an already completed task gives AlreadyCompletedError, and a
successful delete returns the removed record and the remainder. -/
theorem id_directed_ops_spec_witness :
    TodoService.getById 3 [doneTask] = .error (.notFound 3) ∧
    ((TodoService.complete 2 9 [doneTask]).1 = .error .alreadyCompleted) ∧
    (doneTask.id = 2 ∧ ∃ pre post, [doneTask] = pre ++ doneTask :: post ∧
      (∀ x ∈ pre, ¬ x.id = 2) ∧ (TodoService.delete 2 [doneTask]).2 = pre ++ post) := by
  have h3 := id_directed_ops_spec 3 {} 9 [doneTask]
  have h2 := id_directed_ops_spec 2 {} 9 [doneTask]
  refine ⟨?_, ?_, ?_⟩
  · exact h3.1.mpr (by decide)
  · exact (h2.2.2.2.2.2.1 doneTask (by decide)).1.mpr rfl
  · exact h2.2.2.2.2.2.2.2.2.2.2 doneTask rfl

/-- C10: create and import append at the end; update, complete and
uncomplete replace the targeted record in place at its original
position; delete and clearCompleted keep the surviving tasks in their
original relative order; getAll, filter, search and export return their
results in storage order. -/
theorem order_preservation :
    (∀ args now s, (TodoService.create args now s).2 =
      s ++ [(TodoService.create args now s).1]) ∧
    (∀ ts s, (TodoService.importTasks (ImportArg.array ts) s).2 = s ++ ts) ∧
    (∀ id u now s r s1, TodoService.update id u now s = (.ok r, s1) →
      ∃ pre post, s = pre ++ r.old :: post ∧ s1 = pre ++ r.updated :: post) ∧
    (∀ id now s r s1, TodoService.complete id now s = (.ok r, s1) →
      ∃ pre post, s = pre ++ r.old :: post ∧ s1 = pre ++ r.updated :: post) ∧
    (∀ id now s r s1, TodoService.uncomplete id now s = (.ok r, s1) →
      ∃ pre post u1, s = pre ++ r.old :: post ∧ s1 = pre ++ u1 :: post) ∧
    (∀ id s d s1, TodoService.delete id s = (.ok d, s1) →
      ∃ pre post, s = pre ++ d :: post ∧ s1 = pre ++ post) ∧
    (∀ s, TodoService.getAll s = s) ∧
    (∀ s, TodoService.exportTasks s = s) ∧
    (∀ f s, List.Sublist (TodoService.filter f s) s) ∧
    (∀ k s, List.Sublist (TodoService.search k s) s) ∧
    (∀ s, List.Sublist (TodoService.clearCompleted s).2 s) := by
  have hupd : ∀ id u now s r s1, TodoService.update id u now s = (.ok r, s1) →
      ∃ pre post, s = pre ++ r.old :: post ∧ s1 = pre ++ r.updated :: post := by
    intro id u now s r s1 h
    cases hr : replaceFirst (fun x => x.id == id) (fun t => mergeTodo t u now) s with
    | none =>
      simp only [TodoService.update, hr] at h
      exact absurd h (by simp)
    | some v =>
      rcases v with ⟨o, nn, ts1⟩
      simp only [TodoService.update, hr] at h
      injection h with h1 h2
      injection h1 with h1
      subst h1
      subst h2
      obtain ⟨hn, _, pre, post, hsd, _, hts1⟩ := replaceFirst_eq_some _ _ _ _ _ _ hr
      exact ⟨pre, post, hsd, by rw [hn, hts1]⟩
  refine ⟨?_, ?_, hupd, ?_, ?_, ?_, ?_, ?_, ?_, ?_, ?_⟩
  · intro args now s
    rfl
  · intro ts s
    rfl
  · intro id now s r s1 h
    cases hf : s.find? (fun x => x.id == id) with
    | none =>
      simp only [TodoService.complete, hf] at h
      exact absurd h (by simp [Prod.ext_iff])
    | some T =>
      simp only [TodoService.complete, hf] at h
      by_cases hc : T.completed
      · rw [if_pos hc] at h
        exact absurd h (by simp [Prod.ext_iff])
      · rw [if_neg hc] at h
        exact hupd _ _ _ _ _ _ h
  · intro id now s r s1 h
    cases hf : s.find? (fun x => x.id == id) with
    | none =>
      simp only [TodoService.uncomplete, hf] at h
      exact absurd h (by simp [Prod.ext_iff])
    | some T =>
      simp only [TodoService.uncomplete, hf] at h
      by_cases hc : T.completed = false
      · rw [if_pos hc] at h
        exact absurd h (by simp [Prod.ext_iff])
      · rw [if_neg hc] at h
        cases hu : TodoService.update id { completed := some false } now s with
        | mk res ts =>
          rw [hu] at h
          cases res with
          | error e =>
            exact absurd h (by simp [Prod.ext_iff])
          | ok r0 =>
            have hq : ((Except.ok { old := r0.old, updated := removeCompletedAt r0.updated } :
                Except TodoError UpdateResult), ts) = (Except.ok r, s1) := h
            injection hq with ha hb
            injection ha with ha
            subst ha
            subst hb
            obtain ⟨pre, post, hsd, hts⟩ := hupd _ _ _ _ _ _ hu
            exact ⟨pre, post, r0.updated, hsd, hts⟩
  · intro id s d s1 h
    cases hr : removeFirst (fun x => x.id == id) s with
    | none =>
      simp only [TodoService.delete, hr] at h
      exact absurd h (by simp [Prod.ext_iff])
    | some v =>
      rcases v with ⟨d0, ts1⟩
      simp only [TodoService.delete, hr] at h
      injection h with h1 h2
      injection h1 with h1
      subst h1
      subst h2
      obtain ⟨_, pre, post, hsd, _, hts1⟩ := removeFirst_eq_some _ _ _ _ hr
      exact ⟨pre, post, hsd, hts1⟩
  · intro s
    rfl
  · intro s
    rfl
  · intro f s
    exact filter_result_sublist f s
  · intro k s
    exact List.filter_sublist _
  · intro s
    exact List.filter_sublist _

/-- Witness for C10 at a concrete input: updating the only task keeps
it at its position. -/
theorem order_preservation_witness :
    ∃ pre post, [plainTask] = pre ++ plainTask :: post ∧
      [mergeTodo plainTask { completed := some true } 2] =
        pre ++ mergeTodo plainTask { completed := some true } 2 :: post := by
  have h := order_preservation
  have h3 := h.2.2.1 1 { completed := some true } 2 [plainTask]
    { old := plainTask, updated := mergeTodo plainTask { completed := some true } 2 }
    [mergeTodo plainTask { completed := some true } 2] rfl
  simpa using h3
